import Mathlib

/-!
Shallow embedding of `rotate_cubemap_faces.py`: a utility that rotates the
top (`u.jpg`) and bottom (`d.jpg`) faces of a cubemap panorama by 180
degrees and writes each result next to the original under a `_rotated`
name.  Images are modelled as lists of pixel rows, filesystem paths as
lists of characters, and the filesystem, together with the image codec,
is passed explicitly to the effectful routines.
-/

namespace VrHouse

/-- An in-memory decoded image: a list of pixel rows (each pixel a `Nat`). -/
structure Image where
  rows : List (List Nat)
deriving DecidableEq

/-- The number of pixel rows of an image. -/
def Image.height (img : Image) : Nat := img.rows.length

/-- PIL `img.rotate(180)`: a point reflection through the image centre,
    i.e. reverse the order of the rows and reverse each row. -/
def rotate180 (img : Image) : Image :=
  ⟨(img.rows.map List.reverse).reverse⟩

/-- Filesystem paths are character lists (POSIX, separator `/`). -/
abbrev Path := List Char

/-- Python `str.rfind(c)`: the largest index at which `c` occurs, `-1`
    when `c` does not occur. -/
def rfind (c : Char) : Path → Int
  | [] => -1
  | a :: rest =>
    if 0 ≤ rfind c rest then rfind c rest + 1
    else if a = c then 0 else -1

/-- Python `os.path.splitext` (POSIX): split off the extension at the last dot,
    provided that dot lies after the last separator and the characters
    between the separator and the dot are not all dots. -/
def splitext (p : Path) : Path × Path :=
  let sepIndex := rfind '/' p
  let dotIndex := rfind '.' p
  if sepIndex < dotIndex then
    if ((p.drop (sepIndex + 1).toNat).take (dotIndex - (sepIndex + 1)).toNat).any
        (fun ch => ch ≠ '.') then
      (p.take dotIndex.toNat, p.drop dotIndex.toNat)
    else (p, [])
  else (p, [])

/-- The literal tag `_rotated` inserted into output filenames. -/
def rotatedTag : Path := ['_', 'r', 'o', 't', 'a', 't', 'e', 'd']

/-- The output path built at lines 22-23 of the script:
    `base, ext = os.path.splitext(file_path); f"{base}_rotated{ext}"`. -/
def outputPath (p : Path) : Path :=
  (splitext p).1 ++ rotatedTag ++ (splitext p).2

/-- Python `os.path.join(a, b)` (POSIX, one extra component). -/
def joinPath (a b : Path) : Path :=
  if b.head? = some '/' then b
  else if a = [] ∨ a.getLast? = some '/' then a ++ b
  else a ++ '/' :: b

/-- Python `os.path.basename(p)` (POSIX): everything after the last separator. -/
def basename (p : Path) : Path := p.drop ((rfind '/' p) + 1).toNat

/-- The console messages the script can print, one constructor per
    `print` statement. -/
inductive Msg where
  | dirMissing (p : Path)
  | processingDir (p : Path)
  | topMissing (p : Path)
  | bottomMissing (p : Path)
  | saved (p : Path)
  | errorProcessing (p : Path)
  | renameHint (nm tgt : Path)
  | done
  | note
deriving DecidableEq

/-- The filesystem: the set of existing directories and the files with
    their byte contents. -/
structure FS where
  dirs : List Path
  files : List (Path × List Nat)
deriving DecidableEq

/-- Python `os.path.isdir`. -/
def FS.isDir (fs : FS) (p : Path) : Bool := fs.dirs.contains p

/-- Read a file's bytes, `none` when absent. -/
def FS.read (fs : FS) (p : Path) : Option (List Nat) :=
  (fs.files.find? (fun e => e.1 == p)).map (fun e => e.2)

/-- Python `os.path.isfile`. -/
def FS.isFile (fs : FS) (p : Path) : Bool := (fs.read p).isSome

/-- Create or overwrite a file. -/
def FS.write (fs : FS) (p : Path) (b : List Nat) : FS :=
  ⟨fs.dirs, (p, b) :: fs.files⟩

/-- The image codec (PIL), abstracted: decoding bytes may fail
    (corrupt/unsupported format), encoding/saving may fail (I/O error). -/
structure Codec where
  decode : List Nat → Option Image
  encode : Image → Option (List Nat)

/-- The function `rotate_face(file_path)`: open the image, rotate it 180 degrees, save
    it under the `_rotated` name and return the new path; every failure is
    caught and turned into an error message plus a `None` result. -/
def rotate_face (c : Codec) (fs : FS) (p : Path) :
    Option Path × FS × List Msg :=
  match fs.read p with
  | none => (none, fs, [Msg.errorProcessing p])
  | some bytes =>
    match c.decode bytes with
    | none => (none, fs, [Msg.errorProcessing p])
    | some img =>
      let out := outputPath p
      match c.encode (rotate180 img) with
      | none => (none, fs, [Msg.errorProcessing p])
      | some ob => (some out, fs.write out ob, [Msg.saved out])

/-- One face-processing block of `main` (lines 53-58 and 60-65): if the
    face file is missing report that, otherwise rotate it and, on success,
    print the rename hint for `target`. -/
def faceStep (c : Codec) (fs : FS) (facePath target : Path)
    (missing : Path → Msg) : FS × List Msg :=
  if fs.isFile facePath then
    match rotate_face c fs facePath with
    | (some out, fs2, ms) => (fs2, ms ++ [Msg.renameHint (basename out) target])
    | (none, fs2, ms) => (fs2, ms)
  else (fs, [missing facePath])

/-- The fixed top-face filename `u.jpg`. -/
def ujpg : Path := ['u', '.', 'j', 'p', 'g']

/-- The fixed bottom-face filename `d.jpg`. -/
def djpg : Path := ['d', '.', 'j', 'p', 'g']

/-- The derived top output filename `u_rotated.jpg`. -/
def uRotJpg : Path := 'u' :: rotatedTag ++ ['.', 'j', 'p', 'g']

/-- The derived bottom output filename `d_rotated.jpg`. -/
def dRotJpg : Path := 'd' :: rotatedTag ++ ['.', 'j', 'p', 'g']

/-- The default directory `os.path.join("public", "vr", "willow")`. -/
def defaultDir : Path :=
  joinPath (joinPath ['p', 'u', 'b', 'l', 'i', 'c'] ['v', 'r'])
    ['w', 'i', 'l', 'l', 'o', 'w']

/-- Lines 36-39: the working directory is `sys.argv[1]` when given, else
    the default.  `args` is `sys.argv` without the program name. -/
def resolveDir (args : List Path) : Path :=
  match args with
  | [] => defaultDir
  | a :: _ => a

/-- The body of `main` once the working directory is fixed. -/
def mainWithDir (c : Codec) (fs : FS) (base_path : Path) : FS × List Msg :=
  if fs.isDir base_path then
    let r1 := faceStep c fs (joinPath base_path ujpg) ujpg Msg.topMissing
    let r2 := faceStep c r1.1 (joinPath base_path djpg) djpg Msg.bottomMissing
    (r2.1, Msg.processingDir base_path :: (r1.2 ++ r2.2 ++ [Msg.done, Msg.note]))
  else (fs, [Msg.dirMissing base_path])

/-- The entry point `main()`: resolve the directory from the arguments and run. -/
def main (c : Codec) (fs : FS) (args : List Path) : FS × List Msg :=
  mainWithDir c fs (resolveDir args)

/-- Holds exactly when `rotate_face` hits one of its three failure modes
    on this input: unreadable file, decode failure, or encode/save failure. -/
def rotFails (c : Codec) (fs : FS) (p : Path) : Bool :=
  match fs.read p with
  | none => true
  | some bytes =>
    match c.decode bytes with
    | none => true
    | some img => (c.encode (rotate180 img)).isNone

/-- A codec that always succeeds, for concrete witnesses. -/
def okCodec : Codec := ⟨fun _ => some ⟨[[1, 2], [3, 4]]⟩, fun _ => some [7]⟩

/-- A codec whose decoder always fails, for concrete witnesses. -/
def badCodec : Codec := ⟨fun _ => none, fun _ => some [7]⟩

/-- A one-directory filesystem holding both faces, for concrete witnesses. -/
def wFS : FS :=
  ⟨[['w']], [(joinPath ['w'] ujpg, [0]), (joinPath ['w'] djpg, [1])]⟩

/-- A filesystem holding only the bottom face, for concrete witnesses. -/
def wFSd : FS := ⟨[['w']], [(joinPath ['w'] djpg, [1])]⟩

/-- The concrete top-face path `w/u.jpg`, for witnesses. -/
def wU : Path := joinPath ['w'] ujpg

/-- The concrete bottom-face path `w/d.jpg`, for witnesses. -/
def wD : Path := joinPath ['w'] djpg

/-- The concrete derived path `w/u_rotated.jpg`, for witnesses. -/
def wURot : Path :=
  ['w', '/', 'u', '_', 'r', 'o', 't', 'a', 't', 'e', 'd', '.', 'j', 'p', 'g']

/-- A concrete extensionless path, for witnesses. -/
def wNoExt : Path := ['f', 'i', 'l', 'e']

/-- The derived name of `wNoExt`, for witnesses. -/
def wNoExtRot : Path :=
  ['f', 'i', 'l', 'e', '_', 'r', 'o', 't', 'a', 't', 'e', 'd']

/-- A filesystem holding only the extensionless file, for witnesses. -/
def wFSnx : FS := ⟨[], [(wNoExt, [9])]⟩

/-- A concrete 2-by-2 image, for witnesses. -/
def wImg : Image := ⟨[[1, 2], [3, 4]]⟩

/-! ### Basic properties of `rfind` -/

theorem rfind_cons (c a : Char) (rest : Path) :
    rfind c (a :: rest)
      = if 0 ≤ rfind c rest then rfind c rest + 1
        else if a = c then 0 else -1 := rfl

theorem rfind_ge (c : Char) (p : Path) : -1 ≤ rfind c p := by
  induction p with
  | nil => simp [rfind]
  | cons a rest ih =>
    simp only [rfind]
    split_ifs <;> omega

theorem rfind_lt_length (c : Char) (p : Path) : rfind c p < (p.length : Int) := by
  induction p with
  | nil => simp [rfind]
  | cons a rest ih =>
    simp only [rfind, List.length_cons]
    push_cast
    split_ifs <;> omega

theorem rfind_neg_iff (c : Char) (p : Path) : rfind c p < 0 ↔ c ∉ p := by
  induction p with
  | nil => simp [rfind]
  | cons a rest ih =>
    simp only [rfind, List.mem_cons, not_or]
    split_ifs with h1 h2
    · have hmem : c ∈ rest := by
        by_contra hc
        have := ih.mpr hc
        omega
      constructor
      · intro h
        exact absurd h (by omega)
      · intro h
        exact absurd hmem h.2
    · subst h2
      constructor
      · intro h
        exact absurd h (by omega)
      · intro h
        exact absurd rfl h.1
    · have hrest : c ∉ rest := by
        apply ih.mp
        have := rfind_ge c rest
        omega
      constructor
      · intro _
        exact ⟨fun hca => h2 hca.symm, hrest⟩
      · intro _
        omega

theorem rfind_append (c : Char) (s t : Path) :
    rfind c (s ++ t) =
      if 0 ≤ rfind c t then (s.length : Int) + rfind c t else rfind c s := by
  induction s with
  | nil =>
    have h := rfind_ge c t
    simp only [List.nil_append, List.length_nil, Nat.cast_zero, rfind]
    split_ifs <;> omega
  | cons a s' ih =>
    simp only [List.cons_append, rfind, List.append_eq, ih, List.length_cons]
    push_cast
    split_ifs <;> omega

theorem rfind_lt_of_not_mem_drop (c : Char) (p : Path) (k : Nat)
    (h : c ∉ p.drop k) : rfind c p < (k : Int) := by
  have h1 : rfind c (p.drop k) < 0 := (rfind_neg_iff c _).mpr h
  have h2 := rfind_append c (p.take k) (p.drop k)
  rw [List.take_append_drop] at h2
  rw [h2, if_neg (by omega)]
  have h3 := rfind_lt_length c (p.take k)
  have h4 : (p.take k).length ≤ k := by
    rw [List.length_take]
    exact Nat.min_le_left _ _
  omega

theorem rfind_of_getLast (c : Char) (p : Path) (h : p.getLast? = some c) :
    rfind c p = (p.length : Int) - 1 := by
  obtain ⟨ys, rfl⟩ := List.getLast?_eq_some_iff.mp h
  rw [rfind_append]
  have h1 : rfind c [c] = 0 := by simp [rfind]
  rw [h1, if_pos le_rfl]
  simp [List.length_append]

/-! ### Claims about the geometry of the 180-degree rotation -/

/-- C2: applying the 180-degree rotation twice reproduces the original
    pixel content exactly, for any input image. -/
theorem rotate180_rotate180 (img : Image) : rotate180 (rotate180 img) = img := by
  cases img with
  | mk rows =>
    simp [rotate180, List.map_reverse, List.map_map, Function.comp_def]

/-- C1: the rotation maps the pixel at `(x, y)` of the source to
    `(width - 1 - x, height - 1 - y)` of the output, and preserves the
    height and the width (the common row length) of the image. -/
theorem rotate180_pixel_map (img : Image) (w x y : Nat)
    (hrect : ∀ r ∈ img.rows, r.length = w) (hx : x < w) (hy : y < img.height) :
    (rotate180 img).height = img.height ∧
    (∀ r ∈ (rotate180 img).rows, r.length = w) ∧
    (((rotate180 img).rows.getD (img.height - 1 - y) []).getD (w - 1 - x) 0
      = (img.rows.getD y []).getD x 0) := by
  refine ⟨by simp [rotate180, Image.height], ?_, ?_⟩
  · intro r hr
    simp only [rotate180, List.mem_reverse, List.mem_map] at hr
    obtain ⟨r0, hr0, rfl⟩ := hr
    simp [hrect r0 hr0]
  · have hn : img.height = img.rows.length := rfl
    have h1 : img.height - 1 - y < ((img.rows.map List.reverse).reverse).length := by
      simp only [List.length_reverse, List.length_map]
      omega
    have hylt : y < img.rows.length := hy
    have hrlen : (img.rows.get ⟨y, hylt⟩).length = w :=
      hrect _ (by simp only [List.get_eq_getElem]; exact List.getElem_mem hylt)
    have hrow : ((img.rows.map List.reverse).reverse).get ⟨img.height - 1 - y, h1⟩
        = (img.rows.get ⟨y, hylt⟩).reverse := by
      simp only [List.get_eq_getElem]
      rw [List.getElem_reverse]
      simp only [List.length_map, List.getElem_map]
      congr 2
      omega
    have h2 : w - 1 - x < ((img.rows.get ⟨y, hylt⟩).reverse).length := by
      rw [List.length_reverse, hrlen]
      omega
    have hx2 : x < (img.rows.get ⟨y, hylt⟩).length := by
      rw [hrlen]
      omega
    simp only [List.get_eq_getElem] at hrlen hrow h2 hx2
    show (((img.rows.map List.reverse).reverse).getD (img.height - 1 - y) []).getD
        (w - 1 - x) 0 = (img.rows.getD y []).getD x 0
    rw [List.getD_eq_getElem _ _ h1, hrow,
      List.getD_eq_getElem _ _ hylt,
      List.getD_eq_getElem _ _ h2,
      List.getD_eq_getElem _ _ hx2]
    rw [List.getElem_reverse]
    congr 1
    omega

/-! ### Properties of `splitext`, `outputPath`, `joinPath`, `basename` -/

theorem splitext_fst_append_snd (p : Path) :
    (splitext p).1 ++ (splitext p).2 = p := by
  simp only [splitext]
  split_ifs <;> simp [List.take_append_drop]

theorem any_ne_dot_of_slice (p : Path) (i m g : Nat) (h1 : i ≤ g)
    (h2 : g < i + m) (h3 : g < p.length) (h4 : p.getD g '.' ≠ '.') :
    ((p.drop i).take m).any (fun ch => ch ≠ '.') = true := by
  rw [List.any_eq_true]
  have hlen : g - i < ((p.drop i).take m).length := by
    simp only [List.length_take, List.length_drop]
    omega
  refine ⟨((p.drop i).take m).get ⟨g - i, hlen⟩, List.getElem_mem hlen, ?_⟩
  simp only [List.get_eq_getElem, List.getElem_take, List.getElem_drop]
  have hig : i + (g - i) = g := by omega
  simp only [hig]
  rw [← List.getD_eq_getElem p '.' h3]
  simpa using h4

theorem splitext_append (s t : Path) (hd : 0 ≤ rfind '.' t)
    (hs : rfind '/' t < 0) (j : Nat) (hj : j < (rfind '.' t).toNat)
    (hne : t.getD j '.' ≠ '.') :
    splitext (s ++ t)
      = (s ++ t.take (rfind '.' t).toNat, t.drop (rfind '.' t).toNat) := by
  have hdot : rfind '.' (s ++ t) = (s.length : Int) + rfind '.' t := by
    rw [rfind_append, if_pos hd]
  have hsep : rfind '/' (s ++ t) = rfind '/' s := by
    rw [rfind_append, if_neg (by omega)]
  have hsepn : rfind '/' s < (s.length : Int) := rfind_lt_length '/' s
  have hsepge : -1 ≤ rfind '/' s := rfind_ge '/' s
  have hdlt : rfind '.' t < (t.length : Int) := rfind_lt_length '.' t
  simp only [splitext, hdot, hsep]
  rw [if_pos (by omega), if_pos ?slice]
  case slice =>
    apply any_ne_dot_of_slice (s ++ t) _ _ (s.length + j)
    · omega
    · omega
    · simp only [List.length_append]
      omega
    · have hjt : j < t.length := by omega
      rw [List.getD_eq_getElem _ '.' (by simp only [List.length_append]; omega :
          s.length + j < (s ++ t).length)]
      rw [List.getElem_append_right (by omega)]
      have hji : s.length + j - s.length = j := by omega
      simp only [hji]
      rw [← List.getD_eq_getElem t '.' hjt]
      exact hne
  · have h5 : ((s.length : Int) + rfind '.' t).toNat
        = s.length + (rfind '.' t).toNat := by omega
    have ht1 : s.take (s.length + (rfind '.' t).toNat) = s :=
      List.take_of_length_le (by omega)
    have ht2 : s.drop (s.length + (rfind '.' t).toNat) = [] :=
      List.drop_of_length_le (by omega)
    have ht3 : s.length + (rfind '.' t).toNat - s.length
        = (rfind '.' t).toNat := by omega
    rw [h5, List.take_append_eq_append_take, List.drop_append_eq_append_drop,
      ht1, ht2, ht3]
    simp

theorem outputPath_append_face (s : Path) (ch : Char) (h1 : ch ≠ '.')
    (h2 : ch ≠ '/') :
    outputPath (s ++ ch :: ['.', 'j', 'p', 'g'])
      = s ++ ch :: (rotatedTag ++ ['.', 'j', 'p', 'g']) := by
  have h0 : rfind '.' ['.', 'j', 'p', 'g'] = 0 := by decide
  have hd : rfind '.' (ch :: ['.', 'j', 'p', 'g']) = 1 := by
    rw [rfind_cons, h0]
    norm_num
  have h0' : rfind '/' ['.', 'j', 'p', 'g'] = -1 := by decide
  have hsl : rfind '/' (ch :: ['.', 'j', 'p', 'g']) = -1 := by
    rw [rfind_cons, h0', if_neg (by omega), if_neg h2]
  have hse := splitext_append s (ch :: ['.', 'j', 'p', 'g'])
    (by rw [hd]; norm_num) (by rw [hsl]; norm_num) 0
    (by rw [hd]; norm_num) (by simpa using h1)
  rw [hd] at hse
  norm_num [List.take, List.drop] at hse
  simp only [outputPath, hse]
  simp

theorem outputPath_join (d : Path) (ch : Char) (h1 : ch ≠ '.')
    (h2 : ch ≠ '/') :
    outputPath (joinPath d (ch :: ['.', 'j', 'p', 'g']))
      = joinPath d (ch :: (rotatedTag ++ ['.', 'j', 'p', 'g'])) := by
  have hc1 : ¬((ch :: ['.', 'j', 'p', 'g'] : Path).head? = some '/') := by
    simp [h2]
  have hc2 : ¬((ch :: (rotatedTag ++ ['.', 'j', 'p', 'g']) : Path).head?
      = some '/') := by simp [h2]
  rw [joinPath, joinPath, if_neg hc1, if_neg hc2]
  by_cases hdd : d = [] ∨ d.getLast? = some '/'
  · rw [if_pos hdd, if_pos hdd]
    exact outputPath_append_face d ch h1 h2
  · rw [if_neg hdd, if_neg hdd]
    have h3 := outputPath_append_face (d ++ ['/']) ch h1 h2
    simpa using h3

theorem outputPath_join_u (d : Path) :
    outputPath (joinPath d ujpg) = joinPath d uRotJpg :=
  outputPath_join d 'u' (by decide) (by decide)

theorem outputPath_join_d (d : Path) :
    outputPath (joinPath d djpg) = joinPath d dRotJpg :=
  outputPath_join d 'd' (by decide) (by decide)

theorem basename_join (a b : Path) (h : '/' ∉ b) :
    basename (joinPath a b) = b := by
  have hbneg : rfind '/' b < 0 := (rfind_neg_iff _ _).mpr h
  have hbge : -1 ≤ rfind '/' b := rfind_ge '/' b
  have hb : ¬(b.head? = some '/') := by
    cases b with
    | nil => simp
    | cons x xs =>
      simp only [List.head?_cons, Option.some.injEq]
      intro hx
      exact h (by rw [hx]; exact List.mem_cons_self _ _)
  rw [joinPath, if_neg hb]
  by_cases hdd : a = [] ∨ a.getLast? = some '/'
  · rw [if_pos hdd]
    rcases hdd with rfl | hlast
    · simp only [List.nil_append, basename]
      have hb1 : rfind '/' b = -1 := by omega
      rw [hb1]
      simp
    · have ha : rfind '/' a = (a.length : Int) - 1 := rfind_of_getLast '/' a hlast
      have hane : a ≠ [] := by
        intro hnil
        rw [hnil] at hlast
        simp at hlast
      have halen : 1 ≤ a.length := by
        cases a with
        | nil => exact absurd rfl hane
        | cons => simp
      simp only [basename]
      rw [rfind_append, if_neg (by omega), ha]
      have hidx : ((a.length : Int) - 1 + 1).toNat = a.length := by omega
      rw [hidx, List.drop_left]
  · rw [if_neg hdd]
    have hcons : rfind '/' ('/' :: b) = 0 := by
      rw [rfind_cons, if_neg (by omega), if_pos rfl]
    simp only [basename]
    rw [rfind_append, hcons, if_pos le_rfl]
    have hidx : ((a.length : Int) + 0 + 1).toNat = a.length + 1 := by omega
    rw [hidx, List.drop_append_eq_append_drop,
      List.drop_of_length_le (by omega)]
    have hidx2 : a.length + 1 - a.length = 1 := by omega
    rw [hidx2]
    simp

theorem rotate_face_cases (c : Codec) (fs : FS) (p : Path) :
    rotate_face c fs p = (none, fs, [Msg.errorProcessing p]) ∨
    ∃ ob, rotate_face c fs p
      = (some (outputPath p), fs.write (outputPath p) ob,
         [Msg.saved (outputPath p)]) := by
  cases h1 : fs.read p with
  | none => exact Or.inl (by simp [rotate_face, h1])
  | some bytes =>
    cases h2 : c.decode bytes with
    | none => exact Or.inl (by simp [rotate_face, h1, h2])
    | some img =>
      cases h3 : c.encode (rotate180 img) with
      | none => exact Or.inl (by simp [rotate_face, h1, h2, h3])
      | some ob => exact Or.inr ⟨ob, by simp [rotate_face, h1, h2, h3]⟩

theorem rotate_face_of_fails (c : Codec) (fs : FS) (p : Path)
    (h : rotFails c fs p = true) :
    rotate_face c fs p = (none, fs, [Msg.errorProcessing p]) := by
  cases h1 : fs.read p with
  | none => simp [rotate_face, h1]
  | some bytes =>
    cases h2 : c.decode bytes with
    | none => simp [rotate_face, h1, h2]
    | some img =>
      cases h3 : c.encode (rotate180 img) with
      | none => simp [rotate_face, h1, h2, h3]
      | some ob =>
        exfalso
        simp only [rotFails, h1, h2, h3, Option.isNone_some] at h
        exact Bool.false_ne_true h

/-! ### Filesystem and `faceStep` lemmas -/

theorem FS.read_write (fs : FS) (p q : Path) (b : List Nat) :
    (fs.write p b).read q = if q = p then some b else fs.read q := by
  by_cases h : q = p
  · subst h
    simp [FS.read, FS.write]
  · have hbeq : (p == q) = false := by
      simp only [beq_eq_false_iff_ne, ne_eq]
      exact fun hpq => h hpq.symm
    simp [FS.read, FS.write, hbeq, h]

theorem joinPath_inj (d x y : Path) (hx : x.head? ≠ some '/')
    (hy : y.head? ≠ some '/') (hne : x ≠ y) :
    joinPath d x ≠ joinPath d y := by
  simp only [joinPath, if_neg hx, if_neg hy]
  by_cases hdd : d = [] ∨ d.getLast? = some '/'
  · rw [if_pos hdd, if_pos hdd]
    intro h
    exact hne (List.append_cancel_left h)
  · rw [if_neg hdd, if_neg hdd]
    intro h
    have h2 := List.append_cancel_left h
    injection h2 with _ h3
    exact hne h3

theorem faceStep_read (c : Codec) (fs : FS) (fp tgt : Path)
    (mk : Path → Msg) (q : Path) (hq : q ≠ outputPath fp) :
    (faceStep c fs fp tgt mk).1.read q = fs.read q := by
  rcases rotate_face_cases c fs fp with h | ⟨ob, h⟩ <;>
    by_cases hf : fs.isFile fp <;>
    simp [faceStep, hf, h, FS.read_write, hq]

/-! ### The claims about `rotate_face` and `main` -/

/-- C3: whenever `rotate_face` succeeds, the path it returns is the input
    path with the literal `_rotated` inserted immediately before the file
    extension: it is `base ++ "_rotated" ++ ext` where `base ++ ext` is
    exactly the input path split at the extension. -/
theorem rotate_face_output_path (c : Codec) (fs : FS) (p out : Path)
    (fs2 : FS) (ms : List Msg)
    (h : rotate_face c fs p = (some out, fs2, ms)) :
    out = (splitext p).1 ++ rotatedTag ++ (splitext p).2 ∧
    (splitext p).1 ++ (splitext p).2 = p := by
  refine ⟨?_, splitext_fst_append_snd p⟩
  rcases rotate_face_cases c fs p with h1 | ⟨ob, h1⟩
  · rw [h1] at h
    simp at h
  · rw [h1] at h
    simp only [Prod.mk.injEq, Option.some.injEq] at h
    rw [← h.1]
    rfl

theorem rotate_face_output_path_witness :
    wURot = (splitext wU).1 ++ rotatedTag ++ (splitext wU).2 ∧
    (splitext wU).1 ++ (splitext wU).2 = wU :=
  rotate_face_output_path okCodec wFS wU wURot (wFS.write wURot [7])
    [Msg.saved wURot] (by decide)

/-- C9: for an input path whose final component contains no dot (so has no
    file extension), splitting yields an empty extension and the whole path
    as the base, hence `rotate_face` appends `_rotated` at the very end. -/
theorem rotate_face_no_ext (p : Path) (h : '.' ∉ basename p) :
    splitext p = (p, []) ∧ outputPath p = p ++ rotatedTag ∧
    ∀ (c : Codec) (fs : FS) (out : Path) (fs2 : FS) (ms : List Msg),
      rotate_face c fs p = (some out, fs2, ms) → out = p ++ rotatedTag := by
  have hge := rfind_ge '/' p
  have hlt := rfind_lt_of_not_mem_drop '.' p ((rfind '/' p) + 1).toNat h
  have hs : splitext p = (p, []) := by
    simp only [splitext]
    rw [if_neg (by omega)]
  have hout : outputPath p = p ++ rotatedTag := by
    simp [outputPath, hs]
  refine ⟨hs, hout, ?_⟩
  intro c fs out fs2 ms hrf
  rcases rotate_face_cases c fs p with h1 | ⟨ob, h1⟩
  · rw [h1] at hrf
    simp at hrf
  · rw [h1] at hrf
    simp only [Prod.mk.injEq, Option.some.injEq] at hrf
    rw [← hrf.1, hout]

theorem rotate_face_no_ext_witness :
    splitext wNoExt = (wNoExt, []) ∧
    outputPath wNoExt = wNoExt ++ rotatedTag ∧
    wNoExtRot = wNoExt ++ rotatedTag :=
  ⟨(rotate_face_no_ext wNoExt (by decide)).1,
   (rotate_face_no_ext wNoExt (by decide)).2.1,
   (rotate_face_no_ext wNoExt (by decide)).2.2 okCodec wFSnx wNoExtRot
     (wFSnx.write wNoExtRot [7]) [Msg.saved wNoExtRot] (by decide)⟩

/-- C5: on any of its three failure modes (unreadable file, decode
    failure, encode/save failure) `rotate_face` catches the error, leaves
    the filesystem alone, prints one message naming the failing path and
    returns `none`; and inside `main` a failure on the top face does not
    stop the run: the bottom face is still processed from the unchanged
    state and the completion messages are still printed. -/
theorem rotate_face_error_handling (c : Codec) (fs : FS) (p : Path)
    (h : rotFails c fs p = true) :
    rotate_face c fs p = (none, fs, [Msg.errorProcessing p]) ∧
    ∀ d : Path, fs.isDir d = true → fs.isFile (joinPath d ujpg) = true →
      p = joinPath d ujpg →
      main c fs [d]
        = ((faceStep c fs (joinPath d djpg) djpg Msg.bottomMissing).1,
           Msg.processingDir d :: Msg.errorProcessing p ::
             ((faceStep c fs (joinPath d djpg) djpg Msg.bottomMissing).2
               ++ [Msg.done, Msg.note])) := by
  have hrf := rotate_face_of_fails c fs p h
  refine ⟨hrf, ?_⟩
  intro d hdir hfile hp
  subst hp
  simp only [main, resolveDir, mainWithDir, hdir, if_true]
  simp only [faceStep, hfile, if_true, hrf]
  simp

theorem rotate_face_error_handling_witness :
    rotate_face badCodec wFS wU = (none, wFS, [Msg.errorProcessing wU]) ∧
    main badCodec wFS [['w']]
      = ((faceStep badCodec wFS (joinPath ['w'] djpg) djpg
            Msg.bottomMissing).1,
         Msg.processingDir ['w'] :: Msg.errorProcessing wU ::
           ((faceStep badCodec wFS (joinPath ['w'] djpg) djpg
               Msg.bottomMissing).2 ++ [Msg.done, Msg.note])) :=
  ⟨(rotate_face_error_handling badCodec wFS wU (by decide)).1,
   (rotate_face_error_handling badCodec wFS wU (by decide)).2 ['w']
     (by decide) (by decide) rfl⟩

/-- C6: when the resolved working directory does not exist, `main` prints
    only the directory-not-found diagnostic and stops: the filesystem is
    left untouched and no face-processing message is emitted. -/
theorem main_dir_missing (c : Codec) (fs : FS) (args : List Path)
    (h : fs.isDir (resolveDir args) = false) :
    main c fs args = (fs, [Msg.dirMissing (resolveDir args)]) := by
  simp [main, mainWithDir, h]

theorem main_dir_missing_witness :
    main okCodec wFS [['z']] = (wFS, [Msg.dirMissing ['z']]) :=
  main_dir_missing okCodec wFS [['z']] (by decide)

theorem rotate180_pixel_map_witness :
    (rotate180 wImg).height = wImg.height ∧
    ((rotate180 wImg).rows.getD (wImg.height - 1 - 1) []).getD (2 - 1 - 0) 0
      = (wImg.rows.getD 1 []).getD 0 0 :=
  ⟨(rotate180_pixel_map wImg 2 0 1 (by decide) (by decide) (by decide)).1,
   (rotate180_pixel_map wImg 2 0 1 (by decide) (by decide) (by decide)).2.2⟩

/-- C7: with the top face absent and the bottom face present in an
    existing directory, `main` names the missing top file, still rotates
    the bottom face (the only write is `d_rotated.jpg`), and runs to
    completion, the completion message coming after both faces were
    attempted. -/
theorem main_top_absent (c : Codec) (fs : FS) (d : Path) (b : List Nat)
    (img : Image) (ob : List Nat)
    (hdir : fs.isDir d = true)
    (hu : fs.isFile (joinPath d ujpg) = false)
    (hb : fs.read (joinPath d djpg) = some b)
    (hdec : c.decode b = some img)
    (henc : c.encode (rotate180 img) = some ob) :
    main c fs [d]
      = (fs.write (joinPath d dRotJpg) ob,
         [Msg.processingDir d, Msg.topMissing (joinPath d ujpg),
          Msg.saved (joinPath d dRotJpg), Msg.renameHint dRotJpg djpg,
          Msg.done, Msg.note]) := by
  have hfileD : fs.isFile (joinPath d djpg) = true := by
    simp [FS.isFile, hb]
  have hrf : rotate_face c fs (joinPath d djpg)
      = (some (joinPath d dRotJpg), fs.write (joinPath d dRotJpg) ob,
         [Msg.saved (joinPath d dRotJpg)]) := by
    simp [rotate_face, hb, hdec, henc, outputPath_join_d d]
  have hbn : basename (joinPath d dRotJpg) = dRotJpg :=
    basename_join d dRotJpg (by decide)
  simp only [main, resolveDir, mainWithDir, hdir, if_true]
  simp only [faceStep, hu, hfileD, if_true, hrf, hbn]
  simp [hfileD, hrf, hbn]

theorem main_top_absent_witness :
    main okCodec wFSd [['w']]
      = (wFSd.write (joinPath ['w'] dRotJpg) [7],
         [Msg.processingDir ['w'], Msg.topMissing (joinPath ['w'] ujpg),
          Msg.saved (joinPath ['w'] dRotJpg), Msg.renameHint dRotJpg djpg,
          Msg.done, Msg.note]) :=
  main_top_absent okCodec wFSd ['w'] [1] ⟨[[1, 2], [3, 4]]⟩ [7]
    (by decide) (by decide) (by decide) (by decide) (by decide)

/-- C8: with no positional argument `main` works on the fixed relative
    default directory `public/vr/willow`; with one positional argument it
    works on that argument. -/
theorem main_resolves_directory :
    defaultDir
      = ['p', 'u', 'b', 'l', 'i', 'c', '/', 'v', 'r', '/',
         'w', 'i', 'l', 'l', 'o', 'w'] ∧
    (∀ (c : Codec) (fs : FS), main c fs [] = mainWithDir c fs defaultDir) ∧
    (∀ (c : Codec) (fs : FS) (d : Path),
      main c fs [d] = mainWithDir c fs d) :=
  ⟨by decide, fun _ _ => rfl, fun _ _ _ => rfl⟩

/-- C10: `main` looks only at the first positional argument; any further
    arguments are silently ignored and the behaviour is identical to the
    single-argument invocation. -/
theorem main_ignores_extra_args (c : Codec) (fs : FS) (d : Path)
    (rest : List Path) : main c fs (d :: rest) = main c fs [d] := rfl

/-- C4: over a directory holding both `u.jpg` and `d.jpg`, a run changes
    the readable contents of no path other than the two derived paths
    `u_rotated.jpg` and `d_rotated.jpg`; in particular both original face
    files read back exactly as before the run. -/
theorem main_frame_effect (c : Codec) (fs : FS) (d : Path)
    (hdir : fs.isDir d = true)
    (hu : fs.isFile (joinPath d ujpg) = true)
    (hd : fs.isFile (joinPath d djpg) = true) :
    (main c fs [d]).1.read (joinPath d ujpg) = fs.read (joinPath d ujpg) ∧
    (main c fs [d]).1.read (joinPath d djpg) = fs.read (joinPath d djpg) ∧
    ∀ q : Path, (main c fs [d]).1.read q ≠ fs.read q →
      q = joinPath d uRotJpg ∨ q = joinPath d dRotJpg := by
  have key : ∀ q : Path, q ≠ joinPath d uRotJpg → q ≠ joinPath d dRotJpg →
      (main c fs [d]).1.read q = fs.read q := by
    intro q h1 h2
    simp only [main, resolveDir, mainWithDir, hdir, if_true]
    rw [faceStep_read _ _ _ _ _ _ (by rw [outputPath_join_d]; exact h2),
      faceStep_read _ _ _ _ _ _ (by rw [outputPath_join_u]; exact h1)]
  refine ⟨?_, ?_, ?_⟩
  · exact key _ (joinPath_inj d _ _ (by decide) (by decide) (by decide))
      (joinPath_inj d _ _ (by decide) (by decide) (by decide))
  · exact key _ (joinPath_inj d _ _ (by decide) (by decide) (by decide))
      (joinPath_inj d _ _ (by decide) (by decide) (by decide))
  · intro q hq
    by_contra hcon
    push_neg at hcon
    exact hq (key q hcon.1 hcon.2)

theorem main_frame_effect_witness :
    (main okCodec wFS [['w']]).1.read (joinPath ['w'] ujpg)
      = wFS.read (joinPath ['w'] ujpg) ∧
    (main okCodec wFS [['w']]).1.read (joinPath ['w'] djpg)
      = wFS.read (joinPath ['w'] djpg) ∧
    (joinPath ['w'] uRotJpg = joinPath ['w'] uRotJpg ∨
      joinPath ['w'] uRotJpg = joinPath ['w'] dRotJpg) :=
  ⟨(main_frame_effect okCodec wFS ['w'] (by decide) (by decide)
      (by decide)).1,
   (main_frame_effect okCodec wFS ['w'] (by decide) (by decide)
      (by decide)).2.1,
   (main_frame_effect okCodec wFS ['w'] (by decide) (by decide)
      (by decide)).2.2 (joinPath ['w'] uRotJpg) (by decide)⟩

end VrHouse
